import Mathlib

/-!
Shallow embedding of the blockchain ingestion pipeline
(src/blockchain: db/operations.py, api_client.py, extraction/pool.py,
extraction/engine.py, extraction/blockchain_info.py) and proofs of the
frozen claims about it.

The relational store is modelled as lists of rows per table; every SQL
INSERT ... ON CONFLICT DO NOTHING becomes a conflict-ignoring insert keyed
by that table's primary key (schema in db/setup.py).
-/

set_option maxRecDepth 40000

namespace Blockchain

/-- Conflict-ignoring insert: models INSERT ... ON CONFLICT DO NOTHING.
If a row with the same key exists, the table is unchanged; otherwise the
row is appended. -/
def insertRow {α κ : Type} [DecidableEq κ] (key : α → κ) (rows : List α) (r : α) : List α :=
  if rows.any (fun x => key x = key r) then rows else rows ++ [r]

/-- A row with key k is present in the table. -/
def hasKey {α κ : Type} [DecidableEq κ] (key : α → κ) (rows : List α) (k : κ) : Bool :=
  rows.any (fun x => key x = k)

/-- Iterated conflict-ignoring insert of a list of rows. -/
def insertAll {α κ : Type} [DecidableEq κ] (key : α → κ) (rows : List α) (ws : List α) : List α :=
  ws.foldl (insertRow key) rows

theorem hasKey_insertRow_self {α κ : Type} [DecidableEq κ] (key : α → κ) (rows : List α)
    (r : α) : hasKey key (insertRow key rows r) (key r) = true := by
  unfold insertRow hasKey
  by_cases h : rows.any (fun x => key x = key r)
  · simp [h]
  · simp [h, List.any_append]

theorem insertRow_eq_of_hasKey {α κ : Type} [DecidableEq κ] (key : α → κ) (rows : List α)
    (r : α) (h : hasKey key rows (key r) = true) : insertRow key rows r = rows := by
  unfold insertRow
  unfold hasKey at h
  simp [h]

theorem hasKey_insertRow_mono {α κ : Type} [DecidableEq κ] (key : α → κ) (rows : List α)
    (r : α) (k : κ) (h : hasKey key rows k = true) :
    hasKey key (insertRow key rows r) k = true := by
  unfold insertRow hasKey at *
  by_cases hc : rows.any (fun x => key x = key r)
  · simp [hc, h]
  · simp [hc, List.any_append, h]

theorem hasKey_insertAll_mono {α κ : Type} [DecidableEq κ] (key : α → κ) (ws : List α) :
    ∀ (rows : List α) (k : κ), hasKey key rows k = true →
    hasKey key (insertAll key rows ws) k = true := by
  induction ws with
  | nil => intro rows k h; exact h
  | cons w ws ih =>
    intro rows k h
    exact ih (insertRow key rows w) k (hasKey_insertRow_mono key rows w k h)

theorem hasKey_insertAll_of_mem {α κ : Type} [DecidableEq κ] (key : α → κ) (ws : List α) :
    ∀ (rows : List α) (w : α), w ∈ ws →
    hasKey key (insertAll key rows ws) (key w) = true := by
  induction ws with
  | nil => intro rows w h; cases h
  | cons v ws ih =>
    intro rows w h
    rcases List.mem_cons.mp h with h | h
    · subst h
      exact hasKey_insertAll_mono key ws (insertRow key rows w) (key w)
        (hasKey_insertRow_self key rows w)
    · exact ih (insertRow key rows v) w h

theorem insertAll_eq_of_all_hasKey {α κ : Type} [DecidableEq κ] (key : α → κ) (ws : List α) :
    ∀ (rows : List α), (∀ w ∈ ws, hasKey key rows (key w) = true) →
    insertAll key rows ws = rows := by
  induction ws with
  | nil => intro rows _; rfl
  | cons w ws ih =>
    intro rows h
    have h1 : insertRow key rows w = rows :=
      insertRow_eq_of_hasKey key rows w (h w (List.mem_cons_self w ws))
    show insertAll key (insertRow key rows w) ws = rows
    rw [h1]
    exact ih rows (fun v hv => h v (List.mem_cons_of_mem w hv))

/-- Running an iterated conflict-ignoring insert a second time with the same
rows is a no-op: every key is already present after the first run. -/
theorem insertAll_idem {α κ : Type} [DecidableEq κ] (key : α → κ) (rows ws : List α) :
    insertAll key (insertAll key rows ws) ws = insertAll key rows ws := by
  exact insertAll_eq_of_all_hasKey key ws (insertAll key rows ws)
    (fun w hw => hasKey_insertAll_of_mem key ws rows w hw)

/-- Fresh, pairwise-distinct keys are all appended. -/
theorem insertAll_eq_append_of_fresh {α κ : Type} [DecidableEq κ] (key : α → κ) (ws : List α) :
    ∀ (rows : List α),
    ws.Pairwise (fun a b => key a ≠ key b) →
    (∀ w ∈ ws, hasKey key rows (key w) = false) →
    insertAll key rows ws = rows ++ ws := by
  induction ws with
  | nil => intro rows _ _; simp [insertAll]
  | cons w ws ih =>
    intro rows hpw hfresh
    have hw : hasKey key rows (key w) = false := hfresh w (List.mem_cons_self w ws)
    have h1 : insertRow key rows w = rows ++ [w] := by
      unfold insertRow
      unfold hasKey at hw
      simp [hw]
    show insertAll key (insertRow key rows w) ws = rows ++ w :: ws
    rw [h1]
    rw [ih (rows ++ [w]) (List.Pairwise.of_cons hpw)]
    · simp
    · intro v hv
      unfold hasKey
      rw [List.any_append]
      have hv1 : hasKey key rows (key v) = false := hfresh v (List.mem_cons_of_mem w hv)
      unfold hasKey at hv1
      have hne : key w ≠ key v := (List.pairwise_cons.mp hpw).1 v hv
      simp [hv1, hne]

/-! ## Data model

Canonical transaction shape (spec section 6, produced by providers and
consumed by insert_transaction_batch in db/operations.py). -/

structure Vin where
  txid : Option String
  vout : Option Nat
  scriptsig : Option String
  scriptsig_asm : Option String
  sequence : Option Int
  is_coinbase : Bool
  witness : List String
  deriving Repr, DecidableEq

structure Vout where
  value : Option Int
  scriptpubkey : Option String
  scriptpubkey_asm : Option String
  scriptpubkey_type : Option String
  scriptpubkey_address : Option String
  deriving Repr, DecidableEq

structure TxStatus where
  confirmed : Bool
  block_height : Option Int
  deriving Repr, DecidableEq

structure Tx where
  txid : String
  version : Option Int
  locktime : Option Int
  status : TxStatus
  vin : List Vin
  vout : List Vout
  deriving Repr, DecidableEq

/-! Persisted rows, one structure per table of db/setup.py. -/

structure BlockRow where
  block_hash : String
  previous_block_hash : Option String
  height : Int
  version : Option Int
  merkle_root : Option String
  timestamp : Int
  bits : Option String
  nonce : Option Int
  deriving Repr, DecidableEq

structure TxRow where
  txid : String
  block_hash : String
  block_height : Option Int
  tx_index : Nat
  version : Option Int
  locktime : Option Int
  is_coinbase : Bool
  deriving Repr, DecidableEq

structure OutRow where
  txid : String
  output_index : Nat
  value : Option Int
  script_pubkey : Option String
  script_pubkey_asm : Option String
  script_pubkey_type : Option String
  address : Option String
  deriving Repr, DecidableEq

structure InRow where
  txid : String
  input_index : Nat
  prev_txid : Option String
  prev_vout : Option Nat
  script_sig : Option String
  script_sig_asm : Option String
  sequence : Option Int
  is_coinbase : Bool
  deriving Repr, DecidableEq

structure WitRow where
  txid : String
  input_index : Nat
  witness_index : Nat
  witness : String
  deriving Repr, DecidableEq

/-- The persisted database state: one list of rows per table. -/
structure DB where
  blocks : List BlockRow
  transactions : List TxRow
  outputs : List OutRow
  inputs : List InRow
  witnesses : List WitRow
  deriving Repr, DecidableEq

/-- Primary keys (db/setup.py): blocks PK block_hash; transactions PK txid;
outputs PK (txid, output_index); inputs PK (txid, input_index);
witnesses PK (txid, input_index, witness_index). -/
def blockKey (r : BlockRow) : String := r.block_hash

def txKey (r : TxRow) : String := r.txid

def outKey (r : OutRow) : String × Nat := (r.txid, r.output_index)

def inKey (r : InRow) : String × Nat := (r.txid, r.input_index)

def witKey (r : WitRow) : String × Nat × Nat := (r.txid, r.input_index, r.witness_index)

def emptyDB : DB := ⟨[], [], [], [], []⟩

/-! ## Storage writer (db/operations.py) -/

/-- Row built by the bitcoin_transactions INSERT of insert_transaction_batch:
is_coinbase is true iff any vin has is_coinbase, block_height comes from the
tx status. -/
def mkTxRow (block_hash : String) (tx_index : Nat) (tx : Tx) : TxRow :=
  { txid := tx.txid, block_hash := block_hash, block_height := tx.status.block_height,
    tx_index := tx_index, version := tx.version, locktime := tx.locktime,
    is_coinbase := tx.vin.any (fun vin => vin.is_coinbase) }

def mkOutRow (txid : String) (n : Nat) (v : Vout) : OutRow :=
  { txid := txid, output_index := n, value := v.value, script_pubkey := v.scriptpubkey,
    script_pubkey_asm := v.scriptpubkey_asm, script_pubkey_type := v.scriptpubkey_type,
    address := v.scriptpubkey_address }

def mkInRow (txid : String) (n : Nat) (v : Vin) : InRow :=
  { txid := txid, input_index := n, prev_txid := v.txid, prev_vout := v.vout,
    script_sig := v.scriptsig, script_sig_asm := v.scriptsig_asm,
    sequence := v.sequence, is_coinbase := v.is_coinbase }

def mkWitRow (txid : String) (n : Nat) (w_index : Nat) (w_data : String) : WitRow :=
  { txid := txid, input_index := n, witness_index := w_index, witness := w_data }

/-- One bitcoin_outputs INSERT of the vout loop. -/
def outStep (txid : String) (db : DB) (p : Nat × Vout) : DB :=
  { db with outputs := insertRow outKey db.outputs (mkOutRow txid p.1 p.2) }

/-- One bitcoin_witnesses INSERT of the witness loop of input n. -/
def witStep (txid : String) (n : Nat) (db : DB) (q : Nat × String) : DB :=
  { db with witnesses := insertRow witKey db.witnesses (mkWitRow txid n q.1 q.2) }

/-- The per-input body of the vin loop: insert the input row, then each of
its witness items in order. -/
def insertVin (txid : String) (db : DB) (p : Nat × Vin) : DB :=
  p.2.witness.enum.foldl (witStep txid p.1)
    { db with inputs := insertRow inKey db.inputs (mkInRow txid p.1 p.2) }

/-- The per-transaction body of insert_transaction_batch: transaction row,
then outputs, then inputs (each with its witnesses). -/
def insertTx (block_hash : String) (db : DB) (tx_index : Nat) (tx : Tx) : DB :=
  tx.vin.enum.foldl (insertVin tx.txid)
    (tx.vout.enum.foldl (outStep tx.txid)
      { db with transactions := insertRow txKey db.transactions (mkTxRow block_hash tx_index tx) })

/-- The enumerate loop of insert_transaction_batch: the counter starts at
base_index and each transaction is stored at its absolute index. -/
def insertBatchLoop (block_hash : String) : DB → Nat → List Tx → DB
  | db, _, [] => db
  | db, i, tx :: rest => insertBatchLoop block_hash (insertTx block_hash db i tx) (i + 1) rest

/-- insert_transaction_batch (db/operations.py): stores each transaction with
its outputs, inputs and witnesses, every insert conflict-ignoring, and
returns the length of the input batch. This is the committed (no write
failure) execution; the fallible variant below models rollback. -/
def insert_transaction_batch (db : DB) (transactions : List Tx) (block_hash : String)
    (base_index : Nat := 0) : DB × Nat :=
  if transactions.isEmpty then (db, 0)
  else (insertBatchLoop block_hash db base_index transactions, transactions.length)

/-- Block header JSON shape consumed by insert_block_header and
sync_full_block (keys id, previousblockhash, height, version, merkle_root,
timestamp, bits, nonce, tx_count). -/
structure BlockHeaderJson where
  id : String
  previousblockhash : Option String
  height : Int
  version : Option Int
  merkle_root : Option String
  timestamp : Int
  bits : Option String
  nonce : Option Int
  tx_count : Nat
  deriving Repr, DecidableEq

def mkBlockRow (b : BlockHeaderJson) : BlockRow :=
  { block_hash := b.id, previous_block_hash := b.previousblockhash, height := b.height,
    version := b.version, merkle_root := b.merkle_root, timestamp := b.timestamp,
    bits := b.bits, nonce := b.nonce }

/-- insert_block_header (db/operations.py): INSERT INTO bitcoin_blocks ...
ON CONFLICT (block_hash) DO NOTHING. -/
def insert_block_header (db : DB) (block : BlockHeaderJson) : DB :=
  { db with blocks := insertRow blockKey db.blocks (mkBlockRow block) }

/-- SELECT COUNT(*) FROM bitcoin_transactions WHERE block_hash = h. -/
def countTxForBlock (db : DB) (block_hash : String) : Nat :=
  (db.transactions.filter (fun r => r.block_hash = block_hash)).length

/-- is_block_fully_synced (db/operations.py): the fresh count of persisted
transactions for the hash is at least the declared total. -/
def is_block_fully_synced (db : DB) (block_hash : String) (total_txs : Nat) : Bool :=
  total_txs ≤ countTxForBlock db block_hash

/-! ## Decomposition of the batch insert into per-table iterated inserts -/

def joinMap {γ α : Type} (f : γ → List α) : List γ → List α
  | [] => []
  | x :: xs => f x ++ joinMap f xs

/-- Transaction rows produced by a batch starting at absolute index i. -/
def txRowsOf (block_hash : String) : Nat → List Tx → List TxRow
  | _, [] => []
  | i, tx :: rest => mkTxRow block_hash i tx :: txRowsOf block_hash (i + 1) rest

def outRowsOf (tx : Tx) : List OutRow :=
  tx.vout.enum.map (fun p => mkOutRow tx.txid p.1 p.2)

def inRowsOf (tx : Tx) : List InRow :=
  tx.vin.enum.map (fun p => mkInRow tx.txid p.1 p.2)

def witRowsOfVin (txid : String) (p : Nat × Vin) : List WitRow :=
  p.2.witness.enum.map (fun q => mkWitRow txid p.1 q.1 q.2)

def witRowsOf (tx : Tx) : List WitRow :=
  joinMap (witRowsOfVin tx.txid) tx.vin.enum

theorem foldl_preserves {β δ γ : Type} (f : β → γ → β) (proj : β → δ)
    (h : ∀ b x, proj (f b x) = proj b) (l : List γ) :
    ∀ b : β, proj (l.foldl f b) = proj b := by
  induction l with
  | nil => intro b; rfl
  | cons x xs ih => intro b; rw [List.foldl_cons, ih, h]

theorem foldl_comp_proj {β δ γ : Type} (f : β → γ → β) (proj : β → δ) (g : δ → γ → δ)
    (h : ∀ b x, proj (f b x) = g (proj b) x) (l : List γ) :
    ∀ b : β, proj (l.foldl f b) = l.foldl g (proj b) := by
  induction l with
  | nil => intro b; rfl
  | cons x xs ih => intro b; rw [List.foldl_cons, List.foldl_cons, ih, h]

theorem insertAll_append {α κ : Type} [DecidableEq κ] (key : α → κ) (rows a b : List α) :
    insertAll key rows (a ++ b) = insertAll key (insertAll key rows a) b :=
  List.foldl_append _ _ _ _

theorem foldl_insertAll_joinMap {α κ γ : Type} [DecidableEq κ] (key : α → κ)
    (f : γ → List α) (l : List γ) : ∀ rows : List α,
    l.foldl (fun r x => insertAll key r (f x)) rows = insertAll key rows (joinMap f l) := by
  induction l with
  | nil => intro rows; rfl
  | cons x xs ih => intro rows; rw [List.foldl_cons, ih, joinMap, insertAll_append]

theorem insertAll_map {α κ γ : Type} [DecidableEq κ] (key : α → κ) (f : γ → α)
    (l : List γ) (rows : List α) :
    insertAll key rows (l.map f) = l.foldl (fun r x => insertRow key r (f x)) rows := by
  unfold insertAll
  exact List.foldl_map f (insertRow key) l rows

theorem insertVin_inputs (txid : String) (db : DB) (p : Nat × Vin) :
    (insertVin txid db p).inputs = insertRow inKey db.inputs (mkInRow txid p.1 p.2) := by
  unfold insertVin
  exact foldl_preserves (witStep txid p.1) DB.inputs (fun b x => rfl) _ _

theorem insertVin_witnesses (txid : String) (db : DB) (p : Nat × Vin) :
    (insertVin txid db p).witnesses = insertAll witKey db.witnesses (witRowsOfVin txid p) := by
  unfold insertVin witRowsOfVin
  rw [insertAll_map]
  exact foldl_comp_proj (witStep txid p.1) DB.witnesses
    (fun rows q => insertRow witKey rows (mkWitRow txid p.1 q.1 q.2)) (fun b x => rfl) _ _

theorem insertVin_transactions (txid : String) (db : DB) (p : Nat × Vin) :
    (insertVin txid db p).transactions = db.transactions := by
  unfold insertVin
  exact foldl_preserves (witStep txid p.1) DB.transactions (fun b x => rfl) _ _

theorem insertVin_outputs (txid : String) (db : DB) (p : Nat × Vin) :
    (insertVin txid db p).outputs = db.outputs := by
  unfold insertVin
  exact foldl_preserves (witStep txid p.1) DB.outputs (fun b x => rfl) _ _

theorem insertVin_blocks (txid : String) (db : DB) (p : Nat × Vin) :
    (insertVin txid db p).blocks = db.blocks := by
  unfold insertVin
  exact foldl_preserves (witStep txid p.1) DB.blocks (fun b x => rfl) _ _

theorem insertTx_transactions (block_hash : String) (db : DB) (i : Nat) (tx : Tx) :
    (insertTx block_hash db i tx).transactions =
      insertRow txKey db.transactions (mkTxRow block_hash i tx) := by
  unfold insertTx
  rw [foldl_preserves (insertVin tx.txid) DB.transactions (insertVin_transactions tx.txid)]
  exact foldl_preserves (outStep tx.txid) DB.transactions (fun b x => rfl) _ _

theorem insertTx_outputs (block_hash : String) (db : DB) (i : Nat) (tx : Tx) :
    (insertTx block_hash db i tx).outputs = insertAll outKey db.outputs (outRowsOf tx) := by
  unfold insertTx
  rw [foldl_preserves (insertVin tx.txid) DB.outputs (insertVin_outputs tx.txid)]
  unfold outRowsOf
  rw [insertAll_map]
  exact foldl_comp_proj (outStep tx.txid) DB.outputs
    (fun rows p => insertRow outKey rows (mkOutRow tx.txid p.1 p.2)) (fun b x => rfl) _ _

theorem insertTx_inputs (block_hash : String) (db : DB) (i : Nat) (tx : Tx) :
    (insertTx block_hash db i tx).inputs = insertAll inKey db.inputs (inRowsOf tx) := by
  unfold insertTx
  unfold inRowsOf
  rw [insertAll_map]
  rw [foldl_comp_proj (insertVin tx.txid) DB.inputs
    (fun rows p => insertRow inKey rows (mkInRow tx.txid p.1 p.2)) (insertVin_inputs tx.txid)]
  congr 1
  exact foldl_preserves (outStep tx.txid) DB.inputs (fun b x => rfl) _ _

theorem insertTx_witnesses (block_hash : String) (db : DB) (i : Nat) (tx : Tx) :
    (insertTx block_hash db i tx).witnesses =
      insertAll witKey db.witnesses (witRowsOf tx) := by
  unfold insertTx witRowsOf
  rw [foldl_comp_proj (insertVin tx.txid) DB.witnesses
    (fun rows p => insertAll witKey rows (witRowsOfVin tx.txid p)) (insertVin_witnesses tx.txid),
    foldl_insertAll_joinMap]
  congr 1
  exact foldl_preserves (outStep tx.txid) DB.witnesses (fun b x => rfl) _ _

theorem insertTx_blocks (block_hash : String) (db : DB) (i : Nat) (tx : Tx) :
    (insertTx block_hash db i tx).blocks = db.blocks := by
  unfold insertTx
  rw [foldl_preserves (insertVin tx.txid) DB.blocks (insertVin_blocks tx.txid)]
  exact foldl_preserves (outStep tx.txid) DB.blocks (fun b x => rfl) _ _

theorem insertBatchLoop_transactions (block_hash : String) (txs : List Tx) :
    ∀ (db : DB) (i : Nat), (insertBatchLoop block_hash db i txs).transactions =
      insertAll txKey db.transactions (txRowsOf block_hash i txs) := by
  induction txs with
  | nil => intro db i; rfl
  | cons tx rest ih =>
    intro db i
    show (insertBatchLoop block_hash (insertTx block_hash db i tx) (i + 1) rest).transactions = _
    rw [ih, insertTx_transactions]
    rfl

theorem insertBatchLoop_outputs (block_hash : String) (txs : List Tx) :
    ∀ (db : DB) (i : Nat), (insertBatchLoop block_hash db i txs).outputs =
      insertAll outKey db.outputs (joinMap outRowsOf txs) := by
  induction txs with
  | nil => intro db i; rfl
  | cons tx rest ih =>
    intro db i
    show (insertBatchLoop block_hash (insertTx block_hash db i tx) (i + 1) rest).outputs = _
    rw [ih, insertTx_outputs, joinMap, insertAll_append]

theorem insertBatchLoop_inputs (block_hash : String) (txs : List Tx) :
    ∀ (db : DB) (i : Nat), (insertBatchLoop block_hash db i txs).inputs =
      insertAll inKey db.inputs (joinMap inRowsOf txs) := by
  induction txs with
  | nil => intro db i; rfl
  | cons tx rest ih =>
    intro db i
    show (insertBatchLoop block_hash (insertTx block_hash db i tx) (i + 1) rest).inputs = _
    rw [ih, insertTx_inputs, joinMap, insertAll_append]

theorem insertBatchLoop_witnesses (block_hash : String) (txs : List Tx) :
    ∀ (db : DB) (i : Nat), (insertBatchLoop block_hash db i txs).witnesses =
      insertAll witKey db.witnesses (joinMap witRowsOf txs) := by
  induction txs with
  | nil => intro db i; rfl
  | cons tx rest ih =>
    intro db i
    show (insertBatchLoop block_hash (insertTx block_hash db i tx) (i + 1) rest).witnesses = _
    rw [ih, insertTx_witnesses, joinMap, insertAll_append]

theorem insertBatchLoop_blocks (block_hash : String) (txs : List Tx) :
    ∀ (db : DB) (i : Nat), (insertBatchLoop block_hash db i txs).blocks = db.blocks := by
  induction txs with
  | nil => intro db i; rfl
  | cons tx rest ih =>
    intro db i
    show (insertBatchLoop block_hash (insertTx block_hash db i tx) (i + 1) rest).blocks = _
    rw [ih, insertTx_blocks]

theorem DB.ext' (a b : DB) (h1 : a.blocks = b.blocks) (h2 : a.transactions = b.transactions)
    (h3 : a.outputs = b.outputs) (h4 : a.inputs = b.inputs) (h5 : a.witnesses = b.witnesses) :
    a = b := by
  cases a; cases b; simp_all

/-- Core idempotence of the committed batch loop. -/
theorem insertBatchLoop_idem (block_hash : String) (txs : List Tx) (db : DB) (i : Nat) :
    insertBatchLoop block_hash (insertBatchLoop block_hash db i txs) i txs =
      insertBatchLoop block_hash db i txs := by
  apply DB.ext'
  · rw [insertBatchLoop_blocks, insertBatchLoop_blocks]
  · rw [insertBatchLoop_transactions, insertBatchLoop_transactions, insertAll_idem]
  · rw [insertBatchLoop_outputs, insertBatchLoop_outputs, insertAll_idem]
  · rw [insertBatchLoop_inputs, insertBatchLoop_inputs, insertAll_idem]
  · rw [insertBatchLoop_witnesses, insertBatchLoop_witnesses, insertAll_idem]

theorem insertRow_idem {α κ : Type} [DecidableEq κ] (key : α → κ) (rows : List α) (r : α) :
    insertRow key (insertRow key rows r) r = insertRow key rows r :=
  insertRow_eq_of_hasKey key _ r (hasKey_insertRow_self key rows r)

/-! ## Counting transactions for a block hash -/

theorem txRowsOf_shape (block_hash : String) (txs : List Tx) :
    ∀ (i : Nat) (w : TxRow), w ∈ txRowsOf block_hash i txs →
      ∃ (j : Nat) (tx : Tx), tx ∈ txs ∧ w = mkTxRow block_hash j tx := by
  induction txs with
  | nil => intro i w hw; cases hw
  | cons tx rest ih =>
    intro i w hw
    rcases List.mem_cons.mp hw with hw | hw
    · exact ⟨i, tx, List.mem_cons_self tx rest, hw⟩
    · rcases ih (i + 1) w hw with ⟨j, tx', htx', hweq⟩
      exact ⟨j, tx', List.mem_cons_of_mem tx htx', hweq⟩

theorem txRowsOf_map_txid (block_hash : String) (txs : List Tx) :
    ∀ i : Nat, (txRowsOf block_hash i txs).map txKey = txs.map Tx.txid := by
  induction txs with
  | nil => intro i; rfl
  | cons tx rest ih =>
    intro i
    show txKey (mkTxRow block_hash i tx) :: (txRowsOf block_hash (i + 1) rest).map txKey = _
    rw [ih]
    rfl

theorem txRowsOf_length (block_hash : String) (txs : List Tx) :
    ∀ i : Nat, (txRowsOf block_hash i txs).length = txs.length := by
  induction txs with
  | nil => intro i; rfl
  | cons tx rest ih =>
    intro i
    show (txRowsOf block_hash (i + 1) rest).length + 1 = rest.length + 1
    rw [ih]

/-- Ingesting a batch of pairwise-distinct, not-yet-stored transaction ids
raises the persisted count for that block hash by exactly the batch length. -/
theorem countTx_batch_fresh (db : DB) (txs : List Tx) (block_hash : String) (b : Nat)
    (hnodup : (txs.map Tx.txid).Nodup)
    (hfresh : ∀ tx ∈ txs, hasKey txKey db.transactions tx.txid = false) :
    countTxForBlock (insert_transaction_batch db txs block_hash b).1 block_hash =
      countTxForBlock db block_hash + txs.length := by
  unfold insert_transaction_batch
  cases txs with
  | nil => simp
  | cons tx0 rest =>
    simp only [List.isEmpty_cons, if_neg]
    have hrows : (insertBatchLoop block_hash db b (tx0 :: rest)).transactions =
        db.transactions ++ txRowsOf block_hash b (tx0 :: rest) := by
      rw [insertBatchLoop_transactions]
      apply insertAll_eq_append_of_fresh
      · have h1 : ((txRowsOf block_hash b (tx0 :: rest)).map txKey).Pairwise (· ≠ ·) := by
          rw [txRowsOf_map_txid]; exact hnodup
        exact (List.pairwise_map).mp h1
      · intro w hw
        rcases txRowsOf_shape block_hash (tx0 :: rest) b w hw with ⟨j, tx, htx, hweq⟩
        subst hweq
        exact hfresh tx htx
    show countTxForBlock (insertBatchLoop block_hash db b (tx0 :: rest)) block_hash = _
    unfold countTxForBlock
    rw [hrows, List.filter_append, List.length_append]
    congr 1
    have hall : ∀ w ∈ txRowsOf block_hash b (tx0 :: rest),
        (decide (w.block_hash = block_hash)) = true := by
      intro w hw
      rcases txRowsOf_shape block_hash (tx0 :: rest) b w hw with ⟨j, tx, htx, hweq⟩
      subst hweq
      simp [mkTxRow]
    rw [List.filter_eq_self.mpr hall, txRowsOf_length]

/-! ## Claims C1 and C2 -/

/-- C1: re-running insert_transaction_batch with the identical batch, block
hash and base index leaves the persisted state equal to running it once (and
returns the same count); re-running insert_block_header with the same header
is likewise a no-op, and it is already a no-op whenever the block hash
exists. Every insert is conflict-ignoring, so no duplicate rows arise and no
error is raised (the functions are total). -/
theorem C1_ingest_idempotent :
    (∀ (db : DB) (txs : List Tx) (h : String) (b : Nat),
      insert_transaction_batch (insert_transaction_batch db txs h b).1 txs h b =
        insert_transaction_batch db txs h b)
    ∧ (∀ (db : DB) (blk : BlockHeaderJson),
      insert_block_header (insert_block_header db blk) blk = insert_block_header db blk)
    ∧ (∀ (db : DB) (blk : BlockHeaderJson),
      hasKey blockKey db.blocks blk.id = true → insert_block_header db blk = db) := by
  refine ⟨?_, ?_, ?_⟩
  · intro db txs h b
    unfold insert_transaction_batch
    cases htxs : txs.isEmpty
    · simp only [Bool.false_eq_true, if_neg]
      exact congrArg (fun d => (d, txs.length)) (insertBatchLoop_idem h txs db b)
    · simp
  · intro db blk
    unfold insert_block_header
    rw [insertRow_idem]
  · intro db blk h
    unfold insert_block_header
    rw [insertRow_eq_of_hasKey blockKey db.blocks (mkBlockRow blk) h]

/-- C2: is_block_fully_synced is exactly the comparison "persisted count for
the hash is at least the declared total", computed from the database state
passed in; a partially persisted block reads false, and after ingesting the
remaining transactions it reads true. -/
theorem C2_fully_synced_iff :
    (∀ (db : DB) (h : String) (n : Nat),
      is_block_fully_synced db h n = true ↔ n ≤ countTxForBlock db h)
    ∧ (∀ (db : DB) (h : String) (n : Nat),
      countTxForBlock db h < n → is_block_fully_synced db h n = false)
    ∧ (∀ (db : DB) (txs : List Tx) (h : String) (b : Nat) (n : Nat),
      (txs.map Tx.txid).Nodup →
      (∀ tx ∈ txs, hasKey txKey db.transactions tx.txid = false) →
      n ≤ countTxForBlock db h + txs.length →
      is_block_fully_synced (insert_transaction_batch db txs h b).1 h n = true) := by
  refine ⟨?_, ?_, ?_⟩
  · intro db h n
    unfold is_block_fully_synced
    exact decide_eq_true_iff
  · intro db h n hlt
    unfold is_block_fully_synced
    simp [Nat.not_le.mpr hlt]
  · intro db txs h b n hnodup hfresh hle
    unfold is_block_fully_synced
    rw [countTx_batch_fresh db txs h b hnodup hfresh]
    simpa using hle

/-! Concrete fixtures used by the witnesses. -/

def sampleVin : Vin :=
  { txid := some "prevtx", vout := some 0, scriptsig := some "sig",
    scriptsig_asm := some "sig_asm", sequence := some 4294967295,
    is_coinbase := false, witness := ["w0", "w1"] }

def sampleVout : Vout :=
  { value := some 5000, scriptpubkey := some "pk", scriptpubkey_asm := some "pk_asm",
    scriptpubkey_type := some "p2pkh", scriptpubkey_address := some "addr1" }

def sampleTx : Tx :=
  { txid := "t0", version := some 2, locktime := some 0,
    status := { confirmed := true, block_height := some 100 },
    vin := [sampleVin], vout := [sampleVout] }

def sampleTx1 : Tx :=
  { txid := "t1", version := some 2, locktime := some 0,
    status := { confirmed := true, block_height := some 100 },
    vin := [], vout := [] }

def sampleHeader : BlockHeaderJson :=
  { id := "h0", previousblockhash := some "h-prev", height := 100, version := some 2,
    merkle_root := some "mr", timestamp := 1700000000, bits := some "1703e8",
    nonce := some 123, tx_count := 2 }

def sampleDB : DB := { emptyDB with blocks := [mkBlockRow sampleHeader] }

/-- A database holding exactly one of the two declared transactions of block
h0: the partially persisted state of the C2 scenario. -/
def samplePartialDB : DB :=
  { emptyDB with blocks := [mkBlockRow sampleHeader],
                 transactions := [mkTxRow "h0" 0 sampleTx] }

theorem C1_ingest_idempotent_witness :
    hasKey blockKey sampleDB.blocks sampleHeader.id = true ∧
    insert_block_header sampleDB sampleHeader = sampleDB ∧
    insert_transaction_batch (insert_transaction_batch emptyDB [sampleTx] "h0" 0).1
        [sampleTx] "h0" 0 =
      insert_transaction_batch emptyDB [sampleTx] "h0" 0 :=
  ⟨by decide, C1_ingest_idempotent.2.2 sampleDB sampleHeader (by decide),
    C1_ingest_idempotent.1 emptyDB [sampleTx] "h0" 0⟩

theorem C2_fully_synced_iff_witness :
    (countTxForBlock samplePartialDB "h0" < 2 ∧
      is_block_fully_synced samplePartialDB "h0" 2 = false) ∧
    is_block_fully_synced (insert_transaction_batch samplePartialDB [sampleTx1] "h0" 1).1
      "h0" 2 = true :=
  ⟨⟨by decide, C2_fully_synced_iff.2.1 samplePartialDB "h0" 2 (by decide)⟩,
    C2_fully_synced_iff.2.2 samplePartialDB [sampleTx1] "h0" 1 2 (by decide) (by decide)
      (by decide)⟩

/-! ## Fallible batch write: commit on success, rollback on failure

insert_transaction_batch runs all its row INSERTs on one connection and
only commits at the end; any exception triggers conn.rollback() and is
re-raised. We model a possibly failing row write by an oracle on the
sequence number of the write within the batch. -/

/-- One cur.execute row write: fails when the oracle says so, otherwise
applies the row insert to the uncommitted working state and advances the
write counter. -/
def writeStep (failAt : Nat → Bool) (st : DB × Nat) (upd : DB → DB) :
    Except String (DB × Nat) :=
  if failAt st.2 then Except.error ("row write " ++ toString st.2 ++ " failed")
  else Except.ok (upd st.1, st.2 + 1)

def insertVinE (failAt : Nat → Bool) (txid : String) (st : DB × Nat) (p : Nat × Vin) :
    Except String (DB × Nat) := do
  let st1 ← writeStep failAt st
    (fun db => { db with inputs := insertRow inKey db.inputs (mkInRow txid p.1 p.2) })
  p.2.witness.enum.foldlM (fun st q => writeStep failAt st (fun db => witStep txid p.1 db q)) st1

def insertTxE (failAt : Nat → Bool) (block_hash : String) (st : DB × Nat) (i : Nat)
    (tx : Tx) : Except String (DB × Nat) := do
  let st1 ← writeStep failAt st
    (fun db => { db with transactions := insertRow txKey db.transactions (mkTxRow block_hash i tx) })
  let st2 ← tx.vout.enum.foldlM (fun st p => writeStep failAt st (fun db => outStep tx.txid db p)) st1
  tx.vin.enum.foldlM (insertVinE failAt tx.txid) st2

def insertBatchLoopE (failAt : Nat → Bool) (block_hash : String) :
    DB × Nat → Nat → List Tx → Except String (DB × Nat)
  | st, _, [] => Except.ok st
  | st, i, tx :: rest => do
      let st' ← insertTxE failAt block_hash st i tx
      insertBatchLoopE failAt block_hash st' (i + 1) rest

/-- insert_transaction_batch with its transaction semantics: the working
state starts from the persisted state, a commit publishes it and the count
is the batch length; any write failure rolls back to the persisted state
and re-raises the error. -/
def insert_transaction_batch_fallible (failAt : Nat → Bool) (db : DB)
    (transactions : List Tx) (block_hash : String) (base_index : Nat := 0) :
    DB × Except String Nat :=
  if transactions.isEmpty then (db, Except.ok 0)
  else
    match insertBatchLoopE failAt block_hash (db, 0) base_index transactions with
    | Except.ok (db', _) => (db', Except.ok transactions.length)
    | Except.error e => (db, Except.error e)

theorem writeStep_ok (failAt : Nat → Bool) (hfail : ∀ k, failAt k = false)
    (st : DB × Nat) (upd : DB → DB) :
    writeStep failAt st upd = Except.ok (upd st.1, st.2 + 1) := by
  unfold writeStep
  rw [hfail]
  rfl

theorem foldlM_fst {γ : Type} (fc : (DB × Nat) → γ → Except String (DB × Nat))
    (f : DB → γ → DB) (hstep : ∀ st x, ∃ m, fc st x = Except.ok (f st.1 x, m))
    (l : List γ) : ∀ st : DB × Nat, ∃ m, l.foldlM fc st = Except.ok (l.foldl f st.1, m) := by
  induction l with
  | nil => intro st; exact ⟨st.2, rfl⟩
  | cons x xs ih =>
    intro st
    rcases hstep st x with ⟨m0, hm0⟩
    rcases ih (f st.1 x, m0) with ⟨m, hm⟩
    refine ⟨m, ?_⟩
    rw [List.foldlM_cons, hm0]
    show xs.foldlM fc (f st.1 x, m0) = _
    rw [hm]
    rfl

theorem insertVinE_ok (failAt : Nat → Bool) (hfail : ∀ k, failAt k = false)
    (txid : String) (st : DB × Nat) (p : Nat × Vin) :
    ∃ m, insertVinE failAt txid st p = Except.ok (insertVin txid st.1 p, m) := by
  unfold insertVinE
  rw [writeStep_ok failAt hfail]
  have h := foldlM_fst (fun st q => writeStep failAt st (fun db => witStep txid p.1 db q))
    (witStep txid p.1) (fun st q => ⟨st.2 + 1, writeStep_ok failAt hfail st _⟩)
    p.2.witness.enum
  rcases h (({ st.1 with inputs := insertRow inKey st.1.inputs (mkInRow txid p.1 p.2) } : DB),
    st.2 + 1) with ⟨m, hm⟩
  exact ⟨m, hm⟩

theorem insertTxE_ok (failAt : Nat → Bool) (hfail : ∀ k, failAt k = false)
    (block_hash : String) (st : DB × Nat) (i : Nat) (tx : Tx) :
    ∃ m, insertTxE failAt block_hash st i tx =
      Except.ok (insertTx block_hash st.1 i tx, m) := by
  obtain ⟨m1, hm1⟩ := foldlM_fst
    (fun st p => writeStep failAt st (fun db => outStep tx.txid db p))
    (outStep tx.txid) (fun st p => ⟨st.2 + 1, writeStep_ok failAt hfail st _⟩)
    tx.vout.enum
    ({ blocks := st.1.blocks,
       transactions := insertRow txKey st.1.transactions (mkTxRow block_hash i tx),
       outputs := st.1.outputs, inputs := st.1.inputs, witnesses := st.1.witnesses }, st.2 + 1)
  obtain ⟨m2, hm2⟩ := foldlM_fst (insertVinE failAt tx.txid) (insertVin tx.txid)
    (fun st p => insertVinE_ok failAt hfail tx.txid st p) tx.vin.enum
    (tx.vout.enum.foldl (outStep tx.txid)
      { blocks := st.1.blocks,
        transactions := insertRow txKey st.1.transactions (mkTxRow block_hash i tx),
        outputs := st.1.outputs, inputs := st.1.inputs, witnesses := st.1.witnesses }, m1)
  refine ⟨m2, ?_⟩
  calc insertTxE failAt block_hash st i tx
      = (tx.vout.enum.foldlM
          (fun st p => writeStep failAt st (fun db => outStep tx.txid db p))
          ({ blocks := st.1.blocks,
             transactions := insertRow txKey st.1.transactions (mkTxRow block_hash i tx),
             outputs := st.1.outputs, inputs := st.1.inputs,
             witnesses := st.1.witnesses }, st.2 + 1)
          >>= fun st2 => tx.vin.enum.foldlM (insertVinE failAt tx.txid) st2) := by
        unfold insertTxE
        rw [writeStep_ok failAt hfail]
        exact rfl
    _ = tx.vin.enum.foldlM (insertVinE failAt tx.txid)
          (tx.vout.enum.foldl (outStep tx.txid)
            { blocks := st.1.blocks,
              transactions := insertRow txKey st.1.transactions (mkTxRow block_hash i tx),
              outputs := st.1.outputs, inputs := st.1.inputs,
              witnesses := st.1.witnesses }, m1) := by
        rw [hm1]
        exact rfl
    _ = Except.ok (insertTx block_hash st.1 i tx, m2) := hm2

theorem insertBatchLoopE_ok (failAt : Nat → Bool) (hfail : ∀ k, failAt k = false)
    (block_hash : String) (txs : List Tx) :
    ∀ (st : DB × Nat) (i : Nat), ∃ m, insertBatchLoopE failAt block_hash st i txs =
      Except.ok (insertBatchLoop block_hash st.1 i txs, m) := by
  induction txs with
  | nil => intro st i; exact ⟨st.2, rfl⟩
  | cons tx rest ih =>
    intro st i
    rcases insertTxE_ok failAt hfail block_hash st i tx with ⟨m0, hm0⟩
    rcases ih (insertTx block_hash st.1 i tx, m0) (i + 1) with ⟨m, hm⟩
    refine ⟨m, ?_⟩
    show (insertTxE failAt block_hash st i tx >>= fun st' => _) = _
    rw [hm0]
    show insertBatchLoopE failAt block_hash (insertTx block_hash st.1 i tx, m0) (i + 1) rest = _
    rw [hm]
    rfl

/-- C3: the batch write is atomic. If any row write fails, the persisted
state is unchanged (full rollback) and the error is re-raised; on success
the committed state is published and the returned count is the length of
the input batch, duplicates included. With no write failures the fallible
run agrees with the committed model used elsewhere. -/
theorem C3_batch_atomic (failAt : Nat → Bool) (db : DB) (txs : List Tx) (h : String)
    (b : Nat) :
    (∀ e, (insert_transaction_batch_fallible failAt db txs h b).2 = Except.error e →
      (insert_transaction_batch_fallible failAt db txs h b).1 = db)
    ∧ (∀ n, (insert_transaction_batch_fallible failAt db txs h b).2 = Except.ok n →
      n = txs.length)
    ∧ ((∀ k, failAt k = false) →
      insert_transaction_batch_fallible failAt db txs h b =
        ((insert_transaction_batch db txs h b).1,
          Except.ok (insert_transaction_batch db txs h b).2)) := by
  refine ⟨?_, ?_, ?_⟩
  · intro e he
    cases txs with
    | nil => simp [insert_transaction_batch_fallible] at he
    | cons t ts =>
      cases hres : insertBatchLoopE failAt h (db, 0) b (t :: ts) with
      | ok st => simp [insert_transaction_batch_fallible, hres] at he
      | error e2 => simp [insert_transaction_batch_fallible, hres]
  · intro n hn
    cases txs with
    | nil =>
      simp [insert_transaction_batch_fallible] at hn
      simp [← hn]
    | cons t ts =>
      cases hres : insertBatchLoopE failAt h (db, 0) b (t :: ts) with
      | ok st =>
        simp [insert_transaction_batch_fallible, hres] at hn ⊢
        omega
      | error e2 => simp [insert_transaction_batch_fallible, hres] at hn
  · intro hfail
    cases txs with
    | nil => rfl
    | cons t ts =>
      obtain ⟨m, hm⟩ := insertBatchLoopE_ok failAt hfail h (t :: ts) (db, 0) b
      simp [insert_transaction_batch_fallible, insert_transaction_batch, hm]

def failAtTwo (k : Nat) : Bool := k = 2

theorem C3_batch_atomic_witness :
    ((insert_transaction_batch_fallible failAtTwo emptyDB [sampleTx] "h0" 0).2 =
        Except.error "row write 2 failed" ∧
      (insert_transaction_batch_fallible failAtTwo emptyDB [sampleTx] "h0" 0).1 = emptyDB) ∧
    ((insert_transaction_batch_fallible (fun _ => false) emptyDB [sampleTx] "h0" 0).2 =
        Except.ok 1 ∧ (1 : Nat) = [sampleTx].length) ∧
    insert_transaction_batch_fallible (fun _ => false) emptyDB [sampleTx] "h0" 0 =
      ((insert_transaction_batch emptyDB [sampleTx] "h0" 0).1,
        Except.ok (insert_transaction_batch emptyDB [sampleTx] "h0" 0).2) :=
  ⟨⟨by rfl, (C3_batch_atomic failAtTwo emptyDB [sampleTx] "h0" 0).1
      "row write 2 failed" (by rfl)⟩,
    ⟨by rfl, (C3_batch_atomic (fun _ => false) emptyDB [sampleTx] "h0" 0).2.1 1 (by rfl)⟩,
    (C3_batch_atomic (fun _ => false) emptyDB [sampleTx] "h0" 0).2.2 (fun k => rfl)⟩

/-! ## Fetch client (api_client.py)

get_api_data(url, max_retries=5) is modelled over an oracle giving the
outcome of each HTTP attempt (indexed from 0). The function returns the
parsed payload or none, together with the list of sleep durations it
performed, in order. -/

/-- Outcome of one HTTP attempt: a 429/430 rate-limit response carrying the
status code and the optional Retry-After header, one of the three error
classes caught by the client (HTTP error status, malformed JSON body,
connection/timeout), or a parsed JSON payload. -/
inductive FetchOutcome (α : Type) where
  | rateLimited (code : Nat) (retryAfter : Option String)
  | httpError
  | jsonError
  | connError
  | success (v : α)
  deriving Repr

/-- Python str.isdigit over the ASCII model: nonempty and all digits. -/
def pyIsDigit (s : String) : Bool := !s.data.isEmpty && s.data.all Char.isDigit

/-- Python int(s) for an all-digit string. -/
def pyToNat (s : String) : Nat := s.data.foldl (fun n c => n * 10 + (c.toNat - 48)) 0

/-- Wait computed on a 429/430: int(Retry-After) if the header is present
and all digits, else 2 ** attempt * 5. -/
def rateLimitWait (retryAfter : Option String) (attempt : Nat) : Nat :=
  match retryAfter with
  | some s => if pyIsDigit s then pyToNat s else 2 ^ attempt * 5
  | none => 2 ^ attempt * 5

/-- The retry loop of get_api_data, running from the given attempt index
with the given remaining fuel (invariant: attempt + fuel = max_retries).
Returns the payload (or none after exhaustion) and the sleeps performed. -/
def apiLoop {α : Type} (resp : Nat → FetchOutcome α) (max_retries : Nat) :
    Nat → Nat → Option α × List Nat
  | _, 0 => (none, [])
  | attempt, fuel + 1 =>
    match resp attempt with
    | FetchOutcome.success v => (some v, [])
    | FetchOutcome.rateLimited _ ra =>
      let w := rateLimitWait ra attempt
      let r := apiLoop resp max_retries (attempt + 1) fuel
      (r.1, w :: r.2)
    | _ =>
      if attempt < max_retries - 1 then
        let r := apiLoop resp max_retries (attempt + 1) fuel
        (r.1, 3 * (attempt + 1) :: r.2)
      else
        let r := apiLoop resp max_retries (attempt + 1) fuel
        (r.1, r.2)

/-- get_api_data (api_client.py): up to max_retries attempts (default 5),
returning the first successful payload or none. -/
def get_api_data {α : Type} (resp : Nat → FetchOutcome α) (max_retries : Nat := 5) :
    Option α × List Nat :=
  apiLoop resp max_retries 0 max_retries

/-- An attempt outcome that does not terminate the loop. -/
def nonSuccess {α : Type} : FetchOutcome α → Bool
  | FetchOutcome.success _ => false
  | _ => true

/-- The sleep recorded by a non-success, non-final-generic-error attempt. -/
def attemptWait {α : Type} (max_retries : Nat) (attempt : Nat) :
    FetchOutcome α → Option Nat
  | FetchOutcome.success _ => none
  | FetchOutcome.rateLimited _ ra => some (rateLimitWait ra attempt)
  | _ => if attempt < max_retries - 1 then some (3 * (attempt + 1)) else none

theorem apiLoop_trace {α : Type} (resp : Nat → FetchOutcome α) (max_retries : Nat)
    (k : Nat) : ∀ (attempt fuel : Nat), attempt + fuel = max_retries → k < fuel →
    (∀ i, i < k → nonSuccess (resp (attempt + i)) = true) →
    ∀ w, attemptWait max_retries (attempt + k) (resp (attempt + k)) = some w →
    (apiLoop resp max_retries attempt fuel).2[k]? = some w := by
  induction k with
  | zero =>
    intro attempt fuel hsum hk _ w hw
    obtain ⟨fuel', rfl⟩ : ∃ f, fuel = f + 1 := ⟨fuel - 1, by omega⟩
    unfold apiLoop
    rcases hr : resp attempt with ⟨c, ra⟩ | _ | _ | _ | v <;>
      simp only [attemptWait, Nat.add_zero, hr] at hw <;> dsimp only
    · simpa using hw
    · by_cases hlt : attempt < max_retries - 1
      · rw [if_pos hlt] at hw ⊢
        simpa using hw
      · rw [if_neg hlt] at hw
        exact absurd hw (by simp)
    · by_cases hlt : attempt < max_retries - 1
      · rw [if_pos hlt] at hw ⊢
        simpa using hw
      · rw [if_neg hlt] at hw
        exact absurd hw (by simp)
    · by_cases hlt : attempt < max_retries - 1
      · rw [if_pos hlt] at hw ⊢
        simpa using hw
      · rw [if_neg hlt] at hw
        exact absurd hw (by simp)
    · exact absurd hw (by simp)
  | succ k ih =>
    intro attempt fuel hsum hk hns w hw
    obtain ⟨fuel', rfl⟩ : ∃ f, fuel = f + 1 := ⟨fuel - 1, by omega⟩
    have h0 : nonSuccess (resp attempt) = true := by
      have := hns 0 (Nat.succ_pos k)
      rwa [Nat.add_zero] at this
    have hrest : ∀ i, i < k → nonSuccess (resp (attempt + 1 + i)) = true := by
      intro i hi
      have := hns (i + 1) (by omega)
      rwa [show attempt + (i + 1) = attempt + 1 + i by omega] at this
    have hw' : attemptWait max_retries (attempt + 1 + k) (resp (attempt + 1 + k)) = some w := by
      rwa [show attempt + 1 + k = attempt + (k + 1) by omega]
    have hih := ih (attempt + 1) fuel' (by omega) (by omega) hrest w hw'
    have hlt : attempt < max_retries - 1 := by omega
    unfold apiLoop
    rcases hr : resp attempt with ⟨c, ra⟩ | _ | _ | _ | v <;> dsimp only
    · simpa using hih
    · rw [if_pos hlt]
      simpa using hih
    · rw [if_pos hlt]
      simpa using hih
    · rw [if_pos hlt]
      simpa using hih
    · rw [hr] at h0
      simp [nonSuccess] at h0

theorem apiLoop_none {α : Type} (resp : Nat → FetchOutcome α) (m : Nat) (fuel : Nat) :
    ∀ attempt, (∀ i, i < fuel → nonSuccess (resp (attempt + i)) = true) →
    (apiLoop resp m attempt fuel).1 = none := by
  induction fuel with
  | zero => intro attempt _; rfl
  | succ fuel ih =>
    intro attempt h
    have h0 : nonSuccess (resp attempt) = true := by
      have := h 0 (Nat.succ_pos fuel)
      rwa [Nat.add_zero] at this
    have hshift : ∀ i, i < fuel → nonSuccess (resp (attempt + 1 + i)) = true := by
      intro i hi
      have := h (i + 1) (by omega)
      rwa [show attempt + (i + 1) = attempt + 1 + i by omega] at this
    unfold apiLoop
    rcases hr : resp attempt with ⟨c, ra⟩ | _ | _ | _ | v <;> dsimp only
    · exact ih (attempt + 1) hshift
    · split <;> exact ih (attempt + 1) hshift
    · split <;> exact ih (attempt + 1) hshift
    · split <;> exact ih (attempt + 1) hshift
    · rw [hr] at h0
      simp [nonSuccess] at h0

theorem apiLoop_success {α : Type} (resp : Nat → FetchOutcome α) (m : Nat) (j : Nat) :
    ∀ attempt fuel, j < fuel →
    (∀ i, i < j → nonSuccess (resp (attempt + i)) = true) →
    ∀ v, resp (attempt + j) = FetchOutcome.success v →
    (apiLoop resp m attempt fuel).1 = some v := by
  induction j with
  | zero =>
    intro attempt fuel hj _ v hv
    obtain ⟨fuel', rfl⟩ : ∃ f, fuel = f + 1 := ⟨fuel - 1, by omega⟩
    rw [Nat.add_zero] at hv
    unfold apiLoop
    rw [hv]
  | succ j ih =>
    intro attempt fuel hj h v hv
    obtain ⟨fuel', rfl⟩ : ∃ f, fuel = f + 1 := ⟨fuel - 1, by omega⟩
    have h0 : nonSuccess (resp attempt) = true := by
      have := h 0 (Nat.succ_pos j)
      rwa [Nat.add_zero] at this
    have hshift : ∀ i, i < j → nonSuccess (resp (attempt + 1 + i)) = true := by
      intro i hi
      have := h (i + 1) (by omega)
      rwa [show attempt + (i + 1) = attempt + 1 + i by omega] at this
    have hv' : resp (attempt + 1 + j) = FetchOutcome.success v := by
      rwa [show attempt + 1 + j = attempt + (j + 1) by omega]
    unfold apiLoop
    rcases hr : resp attempt with ⟨c, ra⟩ | _ | _ | _ | v2 <;> dsimp only
    · exact ih (attempt + 1) fuel' (by omega) hshift v hv'
    · split <;> exact ih (attempt + 1) fuel' (by omega) hshift v hv'
    · split <;> exact ih (attempt + 1) fuel' (by omega) hshift v hv'
    · split <;> exact ih (attempt + 1) fuel' (by omega) hshift v hv'
    · rw [hr] at h0
      simp [nonSuccess] at h0

/-- C6: wait schedule of the fetch client. On a 429/430 at (0-based) attempt
k, the sleep performed is the numeric Retry-After value when present
(Retry-After: 7 sleeps exactly 7), and 2 ^ k * 5 otherwise (5, 10, 20, ...,
i.e. 5 * 2^(j-1) for 1-based attempt j); any of the three other failure
classes sleeps 3 * (k + 1) before the next attempt. -/
theorem C6_backoff_schedule {α : Type} (resp : Nat → FetchOutcome α)
    (max_retries k : Nat) (hk : k < max_retries)
    (hbefore : ∀ i, i < k → nonSuccess (resp i) = true) :
    (∀ c s, resp k = FetchOutcome.rateLimited c (some s) → pyIsDigit s = true →
      (get_api_data resp max_retries).2[k]? = some (pyToNat s))
    ∧ (∀ c s, resp k = FetchOutcome.rateLimited c (some s) → pyIsDigit s = false →
      (get_api_data resp max_retries).2[k]? = some (2 ^ k * 5))
    ∧ (∀ c, resp k = FetchOutcome.rateLimited c none →
      (get_api_data resp max_retries).2[k]? = some (2 ^ k * 5))
    ∧ ((resp k = FetchOutcome.httpError ∨ resp k = FetchOutcome.jsonError ∨
        resp k = FetchOutcome.connError) → k < max_retries - 1 →
      (get_api_data resp max_retries).2[k]? = some (3 * (k + 1))) := by
  have hbefore' : ∀ i, i < k → nonSuccess (resp (0 + i)) = true := by
    intro i hi
    rw [Nat.zero_add]
    exact hbefore i hi
  refine ⟨?_, ?_, ?_, ?_⟩
  · intro c s hr hs
    exact apiLoop_trace resp max_retries k 0 max_retries (by omega) hk hbefore' (pyToNat s)
      (by rw [Nat.zero_add, hr]; simp [attemptWait, rateLimitWait, hs])
  · intro c s hr hs
    exact apiLoop_trace resp max_retries k 0 max_retries (by omega) hk hbefore' (2 ^ k * 5)
      (by rw [Nat.zero_add, hr]; simp [attemptWait, rateLimitWait, hs])
  · intro c hr
    exact apiLoop_trace resp max_retries k 0 max_retries (by omega) hk hbefore' (2 ^ k * 5)
      (by rw [Nat.zero_add, hr]; simp [attemptWait, rateLimitWait])
  · intro hr hklt
    refine apiLoop_trace resp max_retries k 0 max_retries (by omega) hk hbefore'
      (3 * (k + 1)) ?_
    rw [Nat.zero_add]
    rcases hr with hr | hr | hr <;> rw [hr] <;> simp [attemptWait, hklt]

/-- C7: get_api_data returns the payload of the first successful attempt,
and returns the none sentinel when every attempt within the budget (default
max_retries = 5) is a rate limit or failure. It is a total function of the
attempt outcomes: no outcome raises past its boundary. -/
theorem C7_fetch_returns_first_success_or_none {α : Type}
    (resp : Nat → FetchOutcome α) (max_retries : Nat) :
    (∀ v k, k < max_retries → resp k = FetchOutcome.success v →
      (∀ i, i < k → nonSuccess (resp i) = true) →
      (get_api_data resp max_retries).1 = some v)
    ∧ ((∀ i, i < max_retries → nonSuccess (resp i) = true) →
      (get_api_data resp max_retries).1 = none) := by
  constructor
  · intro v k hk hv hbefore
    refine apiLoop_success resp max_retries k 0 max_retries hk ?_ v (by rwa [Nat.zero_add])
    intro i hi
    rw [Nat.zero_add]
    exact hbefore i hi
  · intro h
    refine apiLoop_none resp max_retries max_retries 0 ?_
    intro i hi
    rw [Nat.zero_add]
    exact h i hi

/-- Attempt outcomes used by the fetch-client witnesses: a 429 with
Retry-After 7, a 429 without the header, an HTTP error, then a success. -/
def sampleResp : Nat → FetchOutcome Nat
  | 0 => FetchOutcome.rateLimited 429 (some "7")
  | 1 => FetchOutcome.rateLimited 430 none
  | 2 => FetchOutcome.httpError
  | _ => FetchOutcome.success 42

def sampleRespFail : Nat → FetchOutcome Nat := fun _ => FetchOutcome.connError

theorem C6_backoff_schedule_witness :
    (get_api_data sampleResp 5).2[0]? = some (pyToNat "7") ∧
    (get_api_data sampleResp 5).2[1]? = some (2 ^ 1 * 5) ∧
    (get_api_data sampleResp 5).2[2]? = some (3 * (2 + 1)) :=
  ⟨(C6_backoff_schedule sampleResp 5 0 (by omega) (by decide)).1 429 "7" rfl (by decide),
    (C6_backoff_schedule sampleResp 5 1 (by omega) (by decide)).2.2.1 430 rfl,
    (C6_backoff_schedule sampleResp 5 2 (by omega) (by decide)).2.2.2 (Or.inl rfl) (by omega)⟩

theorem C7_fetch_returns_first_success_or_none_witness :
    (get_api_data sampleResp 5).1 = some 42 ∧
    (get_api_data sampleRespFail 5).1 = none :=
  ⟨(C7_fetch_returns_first_success_or_none sampleResp 5).1 42 3 (by omega) rfl (by decide),
    (C7_fetch_returns_first_success_or_none sampleRespFail 5).2 (by decide)⟩

/-! ## Provider pool (extraction/pool.py) -/

/-- A provider as the engine uses it: a stable name and the behaviour of
get_block_transactions (block hash and start index to a batch of canonical
transactions, or none when the underlying fetch produced no data). -/
structure Provider where
  name : String
  fetch : String → Nat → Option (List Tx)

instance : Inhabited Provider := ⟨{ name := "", fetch := fun _ _ => none }⟩

/-- Lookup in the cooldown dictionary (provider name to the time until
which it rests; every provider starts at 0). -/
def cooldownOf (l : List (String × Nat)) (name : String) : Nat :=
  match l.find? (fun p => p.1 = name) with
  | some p => p.2
  | none => 0

def setCooldown (l : List (String × Nat)) (name : String) (v : Nat) :
    List (String × Nat) :=
  match l with
  | [] => [(name, v)]
  | (k, w) :: rest =>
    if k = name then (name, v) :: rest else (k, w) :: setCooldown rest name v

structure ProviderPool where
  providers : List Provider
  cursor : Nat
  cooldowns : List (String × Nat)

/-- ProviderPool.__init__: cycle cursor at the list head, all cooldowns 0. -/
def ProviderPool.mk' (providers : List Provider) : ProviderPool :=
  { providers := providers, cursor := 0,
    cooldowns := providers.map (fun p => (p.name, 0)) }

/-- One next() of the itertools cycle, k steps ahead of the cursor. -/
def ProviderPool.peek (pool : ProviderPool) (k : Nat) : Provider :=
  pool.providers.getD ((pool.cursor + k) % pool.providers.length) default

/-- The scan of get_next_provider: the first of the next len(providers)
cycle elements that is out of cooldown, with the number of cycle steps
consumed to reach it. -/
def ProviderPool.findAvailable (pool : ProviderPool) (now : Nat) :
    Option (Provider × Nat) :=
  (List.range pool.providers.length).findSome? (fun k =>
    if cooldownOf pool.cooldowns (pool.peek k).name ≤ now then some (pool.peek k, k)
    else none)

/-- get_next_provider (extraction/pool.py): advance the shared round-robin
cycle, skipping providers in cooldown, scanning at most once around the
list; if every provider is in cooldown, return the next cycle element
anyway. -/
def ProviderPool.get_next_provider (pool : ProviderPool) (now : Nat) :
    Provider × ProviderPool :=
  match pool.findAvailable now with
  | some (p, k) => (p, { pool with cursor := pool.cursor + k + 1 })
  | none =>
    (pool.peek pool.providers.length,
      { pool with cursor := pool.cursor + pool.providers.length + 1 })

/-- report_rate_limit (extraction/pool.py): cooldowns[name] := now +
retry_after; no other provider is affected. -/
def ProviderPool.report_rate_limit (pool : ProviderPool) (name : String)
    (retry_after : Nat) (now : Nat) : ProviderPool :=
  { pool with cooldowns := setCooldown pool.cooldowns name (now + retry_after) }

theorem cooldownOf_setCooldown_self (l : List (String × Nat)) (name : String) (v : Nat) :
    cooldownOf (setCooldown l name v) name = v := by
  induction l with
  | nil => simp [setCooldown, cooldownOf, List.find?]
  | cons hd rest ih =>
    obtain ⟨k, w⟩ := hd
    unfold setCooldown
    by_cases hk : k = name
    · simp [hk, cooldownOf, List.find?]
    · simpa [hk, cooldownOf, List.find?] using ih

theorem peek_mem (pool : ProviderPool) (k : Nat) (hn : 0 < pool.providers.length) :
    pool.peek k ∈ pool.providers := by
  unfold ProviderPool.peek
  rw [List.getD_eq_getElem?_getD, List.getElem?_eq_getElem (Nat.mod_lt _ hn)]
  exact List.getElem_mem _

theorem findAvailable_some (pool : ProviderPool) (now : Nat) (p : Provider) (k : Nat)
    (h : pool.findAvailable now = some (p, k)) :
    p = pool.peek k ∧ k < pool.providers.length ∧
      cooldownOf pool.cooldowns p.name ≤ now := by
  unfold ProviderPool.findAvailable at h
  obtain ⟨a, ha, hfa⟩ := List.exists_of_findSome?_eq_some h
  by_cases hc : cooldownOf pool.cooldowns (pool.peek a).name ≤ now
  · rw [if_pos hc] at hfa
    have hpair : (pool.peek a, a) = (p, k) := Option.some.inj hfa
    have hp : pool.peek a = p := congrArg Prod.fst hpair
    have hk : a = k := congrArg Prod.snd hpair
    subst hk
    exact ⟨hp.symm, List.mem_range.mp ha, hp ▸ hc⟩
  · rw [if_neg hc] at hfa
    cases hfa

theorem exists_cycle_hit (c j n : Nat) (hn : 0 < n) (hj : j < n) :
    ∃ k, k < n ∧ (c + k) % n = j := by
  have hcn : c % n < n := Nat.mod_lt c hn
  by_cases hle : c % n ≤ j
  · refine ⟨j - c % n, by omega, ?_⟩
    rw [Nat.add_mod, Nat.mod_eq_of_lt (show j - c % n < n by omega),
      show c % n + (j - c % n) = j by omega]
    exact Nat.mod_eq_of_lt hj
  · refine ⟨j + n - c % n, by omega, ?_⟩
    rw [Nat.add_mod, Nat.mod_eq_of_lt (show j + n - c % n < n by omega),
      show c % n + (j + n - c % n) = j + n by omega, Nat.add_mod_right]
    exact Nat.mod_eq_of_lt hj

theorem findAvailable_ne_none (pool : ProviderPool) (now : Nat) (q : Provider)
    (hq : q ∈ pool.providers) (havail : cooldownOf pool.cooldowns q.name ≤ now) :
    pool.findAvailable now ≠ none := by
  intro hnone
  unfold ProviderPool.findAvailable at hnone
  rw [List.findSome?_eq_none_iff] at hnone
  obtain ⟨j, hj⟩ := List.mem_iff_getElem.mp hq
  obtain ⟨hjlt, hjeq⟩ := hj
  have hn : 0 < pool.providers.length := by omega
  obtain ⟨k, hk, hke⟩ := exists_cycle_hit pool.cursor j pool.providers.length hn hjlt
  have hpk : pool.peek k = q := by
    unfold ProviderPool.peek
    rw [hke, List.getD_eq_getElem?_getD, List.getElem?_eq_getElem hjlt]
    exact hjeq
  have := hnone k (List.mem_range.mpr hk)
  rw [hpk, if_pos havail] at this
  cases this

theorem get_next_provider_respects_cooldown (pool : ProviderPool) (now : Nat) (P : String)
    (hP : now < cooldownOf pool.cooldowns P)
    (hq : ∃ q ∈ pool.providers, cooldownOf pool.cooldowns q.name ≤ now) :
    (pool.get_next_provider now).1.name ≠ P := by
  obtain ⟨q, hqm, hqa⟩ := hq
  cases hfa : pool.findAvailable now with
  | none => exact absurd hfa (findAvailable_ne_none pool now q hqm hqa)
  | some pk =>
    obtain ⟨p, k⟩ := pk
    obtain ⟨hp, hk, hc⟩ := findAvailable_some pool now p k hfa
    unfold ProviderPool.get_next_provider
    rw [hfa]
    intro hname
    rw [hname] at hc
    omega

theorem get_next_provider_mem (pool : ProviderPool) (now : Nat)
    (hne : pool.providers ≠ []) :
    (pool.get_next_provider now).1 ∈ pool.providers := by
  have hn : 0 < pool.providers.length := List.length_pos.mpr hne
  cases hfa : pool.findAvailable now with
  | none =>
    unfold ProviderPool.get_next_provider
    rw [hfa]
    exact peek_mem pool pool.providers.length hn
  | some pk =>
    obtain ⟨p, k⟩ := pk
    obtain ⟨hp, hk, hc⟩ := findAvailable_some pool now p k hfa
    unfold ProviderPool.get_next_provider
    rw [hfa]
    show p ∈ pool.providers
    rw [hp]
    exact peek_mem pool k hn

/-- C8: report_rate_limit(P, retry_after) at time t sets P's cooldown to
t + retry_after; until that time any get_next_provider call (whatever the
shared cursor's position) returns a provider not named P as long as some
other provider is out of cooldown; and on a nonempty pool
get_next_provider always returns a member of the pool, even when every
provider is in cooldown. -/
theorem C8_cooldown_enforcement :
    (∀ (pool : ProviderPool) (P : String) (t now c : Nat), now < t + 30 →
      (∃ q ∈ pool.providers, q.name ≠ P ∧
        cooldownOf (pool.report_rate_limit P 30 t).cooldowns q.name ≤ now) →
      ¬(({ pool.report_rate_limit P 30 t with cursor := c } :
          ProviderPool).get_next_provider now).1.name = P)
    ∧ (∀ (pool : ProviderPool) (now : Nat), pool.providers ≠ [] →
      (pool.get_next_provider now).1 ∈ pool.providers) := by
  constructor
  · intro pool P t now c hnow hq
    obtain ⟨q, hqm, hqP, hqa⟩ := hq
    apply get_next_provider_respects_cooldown
    · show now < cooldownOf (setCooldown pool.cooldowns P (t + 30)) P
      rw [cooldownOf_setCooldown_self]
      omega
    · exact ⟨q, hqm, hqa⟩
  · intro pool now hne
    exact get_next_provider_mem pool now hne

/-- N successive calls of get_next_provider, threading the pool state. -/
def ProviderPool.get_next_providers (pool : ProviderPool) (now : Nat) :
    Nat → List Provider × ProviderPool
  | 0 => ([], pool)
  | m + 1 =>
    let r1 := pool.get_next_provider now
    let r2 := r1.2.get_next_providers now m
    (r1.1 :: r2.1, r2.2)

theorem get_next_provider_all_avail (pool : ProviderPool) (now : Nat)
    (hn : 0 < pool.providers.length)
    (havail : ∀ p ∈ pool.providers, cooldownOf pool.cooldowns p.name ≤ now) :
    pool.get_next_provider now =
      (pool.peek 0, { pool with cursor := pool.cursor + 1 }) := by
  have hc := havail _ (peek_mem pool 0 hn)
  have h0 : pool.findAvailable now = some (pool.peek 0, 0) := by
    unfold ProviderPool.findAvailable
    obtain ⟨n', hn'⟩ : ∃ n', pool.providers.length = n' + 1 :=
      ⟨pool.providers.length - 1, by omega⟩
    rw [hn', List.range_succ_eq_map]
    simp only [List.findSome?_cons]
    rw [if_pos hc]
  unfold ProviderPool.get_next_provider
  rw [h0]

theorem get_next_providers_all_avail (now : Nat) (m : Nat) :
    ∀ (pool : ProviderPool), 0 < pool.providers.length →
    (∀ p ∈ pool.providers, cooldownOf pool.cooldowns p.name ≤ now) →
    (pool.get_next_providers now m).1 = (List.range m).map (fun k =>
      pool.providers.getD ((pool.cursor + k) % pool.providers.length) default) := by
  induction m with
  | zero => intro pool _ _; rfl
  | succ m ih =>
    intro pool hn havail
    have hstep := get_next_provider_all_avail pool now hn havail
    show ((pool.get_next_provider now).1 ::
      ((pool.get_next_provider now).2.get_next_providers now m).1) = _
    rw [hstep]
    have hih := ih { pool with cursor := pool.cursor + 1 } hn havail
    rw [hih]
    rw [List.range_succ_eq_map, List.map_cons, List.map_map]
    show pool.peek 0 :: _ = pool.providers.getD
        ((pool.cursor + 0) % pool.providers.length) default :: _
    rw [Nat.add_zero]
    unfold ProviderPool.peek
    rw [Nat.add_zero]
    congr 1
    apply List.map_congr_left
    intro a _
    show pool.providers.getD ((pool.cursor + 1 + a) % pool.providers.length) default =
      pool.providers.getD ((pool.cursor + (a + 1)) % pool.providers.length) default
    rw [show pool.cursor + 1 + a = pool.cursor + (a + 1) by omega]

theorem getD_eq_get_of_lt {α : Type} [Inhabited α] (l : List α) (i : Nat)
    (h : i < l.length) : l.getD i default = l.get ⟨i, h⟩ := by
  rw [List.getD_eq_getElem?_getD, List.getElem?_eq_getElem h]
  rfl

theorem get_congr_idx {α : Type} (l : List α) (a b : Nat) (ha : a < l.length)
    (hb : b < l.length) (h : a = b) : l.get ⟨a, ha⟩ = l.get ⟨b, hb⟩ := by
  subst h
  rfl

/-- C9: with every provider out of cooldown, N = len(providers) successive
get_next_provider calls return exactly the provider list rotated to the
cursor: each provider exactly once (a permutation of the pool's list), in
the fixed round-robin order. -/
theorem C9_round_robin_fair (pool : ProviderPool) (now : Nat)
    (hne : pool.providers ≠ [])
    (havail : ∀ p ∈ pool.providers, cooldownOf pool.cooldowns p.name ≤ now) :
    (pool.get_next_providers now pool.providers.length).1 =
      pool.providers.rotate (pool.cursor % pool.providers.length)
    ∧ (pool.get_next_providers now pool.providers.length).1.Perm pool.providers := by
  have hn : 0 < pool.providers.length := List.length_pos.mpr hne
  have hlist := get_next_providers_all_avail now pool.providers.length pool hn havail
  have hrot : (List.range pool.providers.length).map (fun k =>
      pool.providers.getD ((pool.cursor + k) % pool.providers.length) default) =
      pool.providers.rotate (pool.cursor % pool.providers.length) := by
    apply List.ext_get
    · simp
    · intro i h1 h2
      have himap : i < pool.providers.length := by simpa using h1
      rw [List.get_rotate]
      have hstep : ((List.range pool.providers.length).map (fun k =>
          pool.providers.getD ((pool.cursor + k) % pool.providers.length) default)).get
            ⟨i, h1⟩ =
          pool.providers.getD ((pool.cursor + i) % pool.providers.length) default := by
        simp only [List.get_eq_getElem, List.getElem_map, List.getElem_range]
      rw [hstep, getD_eq_get_of_lt _ _ (Nat.mod_lt _ hn)]
      apply get_congr_idx
      rw [Nat.add_mod_mod, Nat.add_comm i pool.cursor]
  refine ⟨hlist.trans hrot, ?_⟩
  rw [hlist.trans hrot]
  exact pool.providers.rotate_perm _

/-! Pool fixtures for the witnesses. -/

def provA : Provider := { name := "blockstream", fetch := fun _ _ => none }

def provB : Provider := { name := "mempool", fetch := fun _ _ => none }

def provC : Provider := { name := "emzy", fetch := fun _ _ => none }

def samplePool : ProviderPool := ProviderPool.mk' [provA, provB]

def samplePool3 : ProviderPool := ProviderPool.mk' [provA, provB, provC]

theorem C8_cooldown_enforcement_witness :
    ¬(({ samplePool.report_rate_limit "blockstream" 30 100 with cursor := 0 } :
        ProviderPool).get_next_provider 110).1.name = "blockstream" ∧
    (samplePool.get_next_provider 110).1 ∈ samplePool.providers :=
  ⟨C8_cooldown_enforcement.1 samplePool "blockstream" 100 110 0 (by omega)
      ⟨provB, by simp [samplePool, ProviderPool.mk'], by decide, by decide⟩,
    C8_cooldown_enforcement.2 samplePool 110 (by simp [samplePool, ProviderPool.mk'])⟩

theorem C9_round_robin_fair_witness :
    (samplePool3.get_next_providers 50 samplePool3.providers.length).1 =
      samplePool3.providers.rotate (samplePool3.cursor % samplePool3.providers.length) ∧
    (samplePool3.get_next_providers 50 samplePool3.providers.length).1.Perm
      samplePool3.providers :=
  C9_round_robin_fair samplePool3 50 (by simp [samplePool3, ProviderPool.mk'])
    (by
      intro p hp
      have hp' : p = provA ∨ p = provB ∨ p = provC := by
        simpa [samplePool3, ProviderPool.mk'] using hp
      rcases hp' with rfl | rfl | rfl <;> decide)

/-! ## Ingestion engine (extraction/engine.py)

Concurrency note: the reference dispatches windows to a thread pool and
aggregates outcomes as they complete; the embedding runs the windows in
dispatch order (increasing start index), threading the database and the
pool state. Window outcomes are independent of completion order because
each window's rows are keyed by txid and pre-computed absolute index. -/

/-- Python truthiness of the fetched batch: not tx_data is true both for
None and for the empty list. -/
def isFalsy : Option (List Tx) → Bool
  | none => true
  | some l => l.isEmpty

structure BatchResult where
  count : Nat
  error : Option String
  db : DB
  pool : ProviderPool
  insertCalled : Bool

/-- fetch_and_store_batch (extraction/engine.py): draw the next provider
from the pool, fetch the window starting at idx; when the fetch yields no
data, report the provider rate-limited with the fixed 30 s cooldown and
return count 0 with an error message, never touching the store and never
retrying the window; otherwise store the batch. The total_txs argument is
only used for tracing attributes. Store failures (the except branch) are
covered by the fallible writer model insert_transaction_batch_fallible. -/
def fetch_and_store_batch (db : DB) (pool : ProviderPool) (now : Nat)
    (block : BlockHeaderJson) (idx : Nat) (total_txs : Nat) : BatchResult :=
  let block_hash := block.id
  let pr := pool.get_next_provider now
  let provider := pr.1
  let tx_data := provider.fetch block_hash idx
  if isFalsy tx_data then
    { count := 0,
      error := some ("Batch at index " ++ toString idx ++ " failed ("
        ++ provider.name ++ ")"),
      db := db, pool := pr.2.report_rate_limit provider.name 30 now,
      insertCalled := false }
  else
    let res := insert_transaction_batch db (tx_data.getD []) block_hash idx
    { count := res.2, error := none, db := res.1, pool := pr.2, insertCalled := true }

structure SyncResult where
  db : DB
  pool : ProviderPool
  skipped : Bool
  windows : List Nat
  outcomes : List (Nat × Option String)
  storeCalls : Nat

/-- range(0, stop, step) for positive step. -/
def pyRange (stop step : Nat) : List Nat :=
  (List.range ((stop + step - 1) / step)).map (fun k => k * step)

/-- One window's dispatch inside sync_full_block, accumulating the
(count, error) outcome and counting store calls. -/
def syncStep (now : Nat) (block : BlockHeaderJson) (total_txs : Nat)
    (acc : SyncResult) (idx : Nat) : SyncResult :=
  let r := fetch_and_store_batch acc.db acc.pool now block idx total_txs
  { acc with
    db := r.db
    pool := r.pool
    outcomes := acc.outcomes ++ [(r.count, r.error)]
    storeCalls := acc.storeCalls + (if r.insertCalled then 1 else 0) }

/-- sync_full_block (extraction/engine.py): skip when already fully synced;
otherwise store the header, partition [0, floor(ratio% * tx_count)) into
windows of 25, dispatch every window and aggregate outcomes, continuing
regardless of individual window failures. -/
def sync_full_block (db : DB) (pool : ProviderPool) (now : Nat)
    (block : BlockHeaderJson) (transaction_ratio_to_fetch : Nat := 100) : SyncResult :=
  let block_hash := block.id
  let total_txs := block.tx_count
  let txs_to_fetch := transaction_ratio_to_fetch * total_txs / 100
  if is_block_fully_synced db block_hash total_txs then
    { db := db, pool := pool, skipped := true, windows := [], outcomes := [],
      storeCalls := 0 }
  else
    let db1 := insert_block_header db block
    let indices := pyRange txs_to_fetch 25
    let init : SyncResult :=
      { db := db1, pool := pool, skipped := false, windows := indices,
        outcomes := [], storeCalls := 0 }
    indices.foldl (syncStep now block total_txs) init

/-- The failure path of fetch_and_store_batch, shared by C4 and C10: no
data (None or empty batch) means a 30 s rate-limit report, count 0, an
error message, an untouched store and no insert call. -/
theorem fetch_and_store_batch_falsy (db : DB) (pool : ProviderPool) (now : Nat)
    (block : BlockHeaderJson) (idx : Nat) (total_txs : Nat)
    (h : isFalsy ((pool.get_next_provider now).1.fetch block.id idx) = true) :
    fetch_and_store_batch db pool now block idx total_txs =
      { count := 0,
        error := some ("Batch at index " ++ toString idx ++ " failed ("
          ++ (pool.get_next_provider now).1.name ++ ")"),
        db := db,
        pool := (pool.get_next_provider now).2.report_rate_limit
          (pool.get_next_provider now).1.name 30 now,
        insertCalled := false } := by
  unfold fetch_and_store_batch
  rw [if_pos h]

/-! Engine scenario fixtures. -/

/-- A canonical transaction with only an id, as a provider would return for
slot i of the scenario blocks. -/
def mkSampleTx (i : Nat) : Tx :=
  { txid := "t" ++ toString i, version := none, locktime := none,
    status := { confirmed := true, block_height := none }, vin := [], vout := [] }

/-- A provider that answers every window of a block with total transactions
with the canonical batch for [idx, min(idx+25, total)). -/
def goodProvider (total : Nat) : Provider :=
  { name := "blockstream",
    fetch := fun _ idx =>
      some ((List.range (min 25 (total - idx))).map (fun j => mkSampleTx (idx + j))) }

/-- A provider whose fetch for window 50 fails (no data) and succeeds for
every other window of a 100-transaction block. -/
def flakyProvider : Provider :=
  { name := "mempool",
    fetch := fun _ idx =>
      if idx = 50 then none
      else some ((List.range (min 25 (100 - idx))).map (fun j => mkSampleTx (idx + j))) }

def header60 : BlockHeaderJson :=
  { id := "hb", previousblockhash := none, height := 60, version := some 2,
    merkle_root := none, timestamp := 1700000000, bits := none, nonce := none,
    tx_count := 60 }

def header100 : BlockHeaderJson :=
  { id := "hc", previousblockhash := none, height := 100, version := some 2,
    merkle_root := none, timestamp := 1700000000, bits := none, nonce := none,
    tx_count := 100 }

def pool60 : ProviderPool := ProviderPool.mk' [goodProvider 60]

def poolFlaky : ProviderPool := ProviderPool.mk' [flakyProvider]

def res60 : SyncResult := sync_full_block emptyDB pool60 0 header60 100

def resFlaky : SyncResult := sync_full_block emptyDB poolFlaky 0 header100 100

/-- C4: a single window's failure never aborts the block. A worker whose
fetch yields no data reports its provider to the pool as rate-limited with
the fixed 30 s cooldown and returns count 0 with an error message, without
touching the store and without retrying the window; and in the scenario
where window [50,75) of a 100-transaction block fails while the others
succeed, all four windows are attempted (one outcome each), transactions
0-49 and 75-99 are persisted and 50-74 are absent. -/
theorem C4_window_failure_isolated :
    (∀ (db : DB) (pool : ProviderPool) (now : Nat) (block : BlockHeaderJson)
        (idx total_txs : Nat),
      isFalsy ((pool.get_next_provider now).1.fetch block.id idx) = true →
      fetch_and_store_batch db pool now block idx total_txs =
        { count := 0,
          error := some ("Batch at index " ++ toString idx ++ " failed ("
            ++ (pool.get_next_provider now).1.name ++ ")"),
          db := db,
          pool := (pool.get_next_provider now).2.report_rate_limit
            (pool.get_next_provider now).1.name 30 now,
          insertCalled := false })
    ∧ (resFlaky.windows = [0, 25, 50, 75] ∧
      resFlaky.outcomes = [(25, none), (25, none),
        (0, some "Batch at index 50 failed (mempool)"), (25, none)] ∧
      cooldownOf resFlaky.pool.cooldowns "mempool" = 30 ∧
      ((List.range 100).all (fun i =>
        hasKey txKey resFlaky.db.transactions ("t" ++ toString i)
          == decide (i < 50 ∨ 75 ≤ i)) = true)) :=
  ⟨fun db pool now block idx total_txs h =>
      fetch_and_store_batch_falsy db pool now block idx total_txs h,
    by decide, by decide, by decide, by decide⟩

theorem C4_window_failure_isolated_witness :
    isFalsy ((poolFlaky.get_next_provider 0).1.fetch header100.id 50) = true ∧
    fetch_and_store_batch emptyDB poolFlaky 0 header100 50 100 =
      { count := 0,
        error := some ("Batch at index " ++ toString 50 ++ " failed ("
          ++ (poolFlaky.get_next_provider 0).1.name ++ ")"),
        db := emptyDB,
        pool := (poolFlaky.get_next_provider 0).2.report_rate_limit
          (poolFlaky.get_next_provider 0).1.name 30 0,
        insertCalled := false } :=
  ⟨by decide, C4_window_failure_isolated.1 emptyDB poolFlaky 0 header100 50 100 (by decide)⟩

/-- C5: sync_full_block performs no stores at all when the block is already
fully synced; otherwise it dispatches exactly the windows 0, 25, 50, ...
below floor(ratio% * tx_count); and for tx_count = 60 at ratio 100 exactly
the windows [0,25), [25,50), [50,60) are dispatched, three store calls
persist 60 transactions, and the block then reports fully synced. -/
theorem C5_sync_dispatch :
    (∀ (db : DB) (pool : ProviderPool) (now : Nat) (block : BlockHeaderJson)
        (ratio : Nat),
      is_block_fully_synced db block.id block.tx_count = true →
      sync_full_block db pool now block ratio =
        { db := db, pool := pool, skipped := true, windows := [], outcomes := [],
          storeCalls := 0 })
    ∧ (∀ (db : DB) (pool : ProviderPool) (now : Nat) (block : BlockHeaderJson)
        (ratio : Nat),
      is_block_fully_synced db block.id block.tx_count = false →
      (sync_full_block db pool now block ratio).windows =
        pyRange (ratio * block.tx_count / 100) 25)
    ∧ (res60.windows = [0, 25, 50] ∧
      res60.outcomes = [(25, none), (25, none), (10, none)] ∧
      res60.storeCalls = 3 ∧
      countTxForBlock res60.db "hb" = 60 ∧
      is_block_fully_synced res60.db "hb" 60 = true) := by
  refine ⟨?_, ?_, by decide, by decide, by decide, by decide, by decide⟩
  · intro db pool now block ratio h
    simp [sync_full_block, h]
  · intro db pool now block ratio h
    simp only [sync_full_block, h, Bool.false_eq_true, if_false]
    rw [foldl_preserves (syncStep now block block.tx_count) SyncResult.windows
      (fun b x => rfl)]

def dbSynced60 : DB := res60.db

theorem C5_sync_dispatch_witness :
    sync_full_block dbSynced60 pool60 0 header60 100 =
      { db := dbSynced60, pool := pool60, skipped := true, windows := [],
        outcomes := [], storeCalls := 0 } ∧
    (sync_full_block emptyDB pool60 0 header60 100).windows =
      pyRange (100 * header60.tx_count / 100) 25 :=
  ⟨C5_sync_dispatch.1 dbSynced60 pool60 0 header60 100 (by decide),
    C5_sync_dispatch.2.1 emptyDB pool60 0 header60 100 (by decide)⟩

/-! ## blockchain.info provider (extraction/blockchain_info.py) -/

structure RawPrevOut where
  n : Option Nat
  value : Option Int
  script : Option String
  deriving Repr, DecidableEq

structure RawVin where
  prev_out : Option RawPrevOut
  script : Option String
  sequence : Option Int
  deriving Repr, DecidableEq

structure RawVout where
  value : Option Int
  script : Option String
  addr : Option String
  deriving Repr, DecidableEq

/-- One element of the tx array of a blockchain.info rawblock payload. -/
structure RawTx where
  hash : String
  ver : Option Int
  lock_time : Option Int
  size : Option Int
  weight : Option Int
  block_height : Option Int
  inputs : List RawVin
  out : List RawVout
  deriving Repr, DecidableEq

/-- Translation of one vendor input to the canonical schema: no prev txid,
coinbase iff prev_out is absent, no witness list. -/
def translateVin (vin : RawVin) : Vin :=
  { txid := none, vout := vin.prev_out.bind (fun po => po.n), scriptsig := vin.script,
    scriptsig_asm := none, sequence := vin.sequence,
    is_coinbase := vin.prev_out.isNone, witness := [] }

def translateVout (vout : RawVout) : Vout :=
  { value := vout.value, scriptpubkey := vout.script, scriptpubkey_asm := none,
    scriptpubkey_type := none, scriptpubkey_address := vout.addr }

def translateTx (block_hash : String) (tx : RawTx) : Tx :=
  { txid := tx.hash, version := tx.ver, locktime := tx.lock_time,
    status := { confirmed := true, block_height := tx.block_height },
    vin := tx.inputs.map translateVin, vout := tx.out.map translateVout }

def lookupCache (cache : List (String × List RawTx)) (h : String) :
    Option (List RawTx) :=
  (cache.find? (fun p => p.1 = h)).map (fun p => p.2)

/-- BlockchainInfoProvider.get_block_transactions: populate the full-block
cache on a miss from the fetched rawblock payload (none models a failed
fetch or a payload without the tx key, which return the None sentinel),
then slice [start_index, start_index + 25) of the cached list and
translate; an empty slice is returned as some [] — an empty list, not the
None failure sentinel. Returns the result and the new cache. -/
def BlockchainInfo.get_block_transactions (cache : List (String × List RawTx))
    (fetched : Option (List RawTx)) (block_hash : String) (start_index : Nat) :
    Option (List Tx) × List (String × List RawTx) :=
  match lookupCache cache block_hash with
  | none =>
    match fetched with
    | none => (none, cache)
    | some txs =>
      let cache1 := cache ++ [(block_hash, txs)]
      let batch := (txs.drop start_index).take 25
      if batch.isEmpty then (some [], cache1)
      else (some (batch.map (translateTx block_hash)), cache1)
  | some txs =>
    let batch := (txs.drop start_index).take 25
    if batch.isEmpty then (some [], cache)
    else (some (batch.map (translateTx block_hash)), cache)

/-- C10: a past-the-end window on a cached block yields some [] (a
legitimate empty batch, distinct from the None failure sentinel), and the
engine treats an empty-list response exactly like a None response: the
provider is reported rate-limited for 30 s, the worker returns count 0
with the same error message, and insert_transaction_batch is never called
(the store is untouched). -/
theorem C10_empty_batch_treated_as_failure :
    (∀ (cache : List (String × List RawTx)) (txs : List RawTx) (h : String)
        (start : Nat),
      lookupCache cache h = some txs → txs.length ≤ start →
      (BlockchainInfo.get_block_transactions cache none h start).1 = some [])
    ∧ (∀ (db : DB) (pool : ProviderPool) (now : Nat) (block : BlockHeaderJson)
        (idx total_txs : Nat),
      ((pool.get_next_provider now).1.fetch block.id idx = some ([] : List Tx) ∨
        (pool.get_next_provider now).1.fetch block.id idx = none) →
      fetch_and_store_batch db pool now block idx total_txs =
        { count := 0,
          error := some ("Batch at index " ++ toString idx ++ " failed ("
            ++ (pool.get_next_provider now).1.name ++ ")"),
          db := db,
          pool := (pool.get_next_provider now).2.report_rate_limit
            (pool.get_next_provider now).1.name 30 now,
          insertCalled := false }) := by
  constructor
  · intro cache txs h start hl hlen
    unfold BlockchainInfo.get_block_transactions
    rw [hl]
    dsimp only
    rw [List.drop_eq_nil_of_le hlen]
    rfl
  · intro db pool now block idx total_txs h2
    apply fetch_and_store_batch_falsy
    rcases h2 with h2 | h2 <;> rw [h2] <;> rfl

def rawTx0 : RawTx :=
  { hash := "r0", ver := some 1, lock_time := some 0, size := none, weight := none,
    block_height := some 100, inputs := [], out := [] }

def sampleCache : List (String × List RawTx) := [("hb", [rawTx0])]

def emptyBatchProvider : Provider :=
  { name := "blockchain_info", fetch := fun _ _ => some [] }

def poolEmptyBatch : ProviderPool := ProviderPool.mk' [emptyBatchProvider]

theorem C10_empty_batch_treated_as_failure_witness :
    (BlockchainInfo.get_block_transactions sampleCache none "hb" 25).1 = some [] ∧
    fetch_and_store_batch emptyDB poolEmptyBatch 0 header100 75 100 =
      { count := 0,
        error := some ("Batch at index " ++ toString 75 ++ " failed ("
          ++ (poolEmptyBatch.get_next_provider 0).1.name ++ ")"),
        db := emptyDB,
        pool := (poolEmptyBatch.get_next_provider 0).2.report_rate_limit
          (poolEmptyBatch.get_next_provider 0).1.name 30 0,
        insertCalled := false } :=
  ⟨C10_empty_batch_treated_as_failure.1 sampleCache [rawTx0] "hb" 25 (by decide)
      (by decide),
    C10_empty_batch_treated_as_failure.2 emptyDB poolEmptyBatch 0 header100 75 100
      (Or.inl (by decide))⟩

end Blockchain
